import Mathlib

/-!
Verification of the data-augmentation helpers and classifier head of the
MT3_Classifer repository (src/data/transforms.py, src/models/classifier.py).

Modelling conventions:

* A volume (`torch.Tensor` of shape C x D x H x W, channel first) is a
  `Tensor4`: four shape fields plus a total data function on `Nat` indices.
  Values at out-of-range indices are irrelevant; value equality of tensors
  (what `torch.equal` tests) is `Tensor4.Eqv`, which compares shapes and all
  in-range entries.
* Python's process-wide `random` generator is `PyGen`: a stream of raw
  natural-number draws plus a cursor.  `random.randint a b` returns a value
  in the closed interval from a to b and advances the cursor;
  `random.random()` returns a dyadic rational in the half-open unit interval
  (Python produces n / 2^53 with n < 2^53).
* torch's separate process-wide generator is `TorchGen`.  It supplies the
  draws of `torch.randperm` (a list that is a permutation of `range n`,
  recorded by the proof field `seq_perm`, which is `torch.randperm`'s
  contract) and the uniform draws of `torch.rand` (float values in the
  half-open unit interval, modelled as dyadic rationals m / 2^24).
* Real-valued parameters (probabilities, intensity ranges, `torch.pi`) are
  carried as rationals; the claims only compare them for identity, never
  compute with them, so exact float rounding is immaterial.
-/

/-- Python's global `random` generator: a stream of raw draws and a cursor. -/
structure PyGen where
  raw : Nat → Nat
  pos : Nat

/-- `random.randint(a, b)`: an integer in the closed interval from `a` to
`b`; consumes one draw. -/
def PyGen.randint (g : PyGen) (a b : Nat) : Nat × PyGen :=
  (a + g.raw g.pos % (b - a + 1), ⟨g.raw, g.pos + 1⟩)

/-- `random.random()`: a dyadic rational n / 2^53 in [0, 1); consumes one
draw. -/
def PyGen.random (g : PyGen) : ℚ × PyGen :=
  (((g.raw g.pos % 2 ^ 53 : ℕ) : ℚ) / 2 ^ 53, ⟨g.raw, g.pos + 1⟩)

/-- torch's global generator.  `seq p n` is the permutation `torch.randperm n`
would return at cursor position `p` (always a permutation of `List.range n`,
per `torch.randperm`'s contract, recorded by `seq_perm`); `raw` feeds the
uniform draws of `torch.rand`. -/
structure TorchGen where
  seq : Nat → Nat → List Nat
  raw : Nat → Nat
  pos : Nat
  seq_perm : ∀ p n, (seq p n).Perm (List.range n)

/-- `torch.randperm n`: the generator's next permutation draw. -/
def TorchGen.randperm (g : TorchGen) (n : Nat) : List Nat × TorchGen :=
  (g.seq g.pos n, ⟨g.seq, g.raw, g.pos + 1, g.seq_perm⟩)

/-- Value of the uniform draw of `torch.rand` taken at stream position `i`:
a dyadic rational m / 2^24 in [0, 1). -/
def TorchGen.randFloat (g : TorchGen) (i : Nat) : ℚ :=
  ((g.raw i % 2 ^ 24 : ℕ) : ℚ) / 2 ^ 24

/-- A channel-first volume of shape C x D x H x W.  `data` is total on `Nat`
indices; entries outside the shape are irrelevant. -/
structure Tensor4 where
  c : Nat
  d : Nat
  h : Nat
  w : Nat
  data : Nat → Nat → Nat → Nat → Int

/-- Value equality of volumes, what `torch.equal` tests: same shape and same
entries at every in-range index. -/
def Tensor4.Eqv (s t : Tensor4) : Prop :=
  s.c = t.c ∧ s.d = t.d ∧ s.h = t.h ∧ s.w = t.w ∧
    ∀ i j a b, i < s.c → j < s.d → a < s.h → b < s.w →
      s.data i j a b = t.data i j a b

theorem Tensor4.Eqv.refl (t : Tensor4) : Tensor4.Eqv t t :=
  ⟨rfl, rfl, rfl, rfl, fun _ _ _ _ _ _ _ _ => rfl⟩

/-- One counter-clockwise quarter turn in the plane of dims (2, 3), i.e. the
H x W plane: `out[i, j, a, b] = in[i, j, b, W - 1 - a]`, new shape
C x D x W x H (the `torch.rot90` single-step semantics). -/
def rot90step23 (t : Tensor4) : Tensor4 :=
  ⟨t.c, t.d, t.w, t.h, fun i j a b => t.data i j b (t.w - 1 - a)⟩

/-- One quarter turn in the plane of dims (1, 3), the D x W plane:
`out[i, j, a, b] = in[i, b, a, W - 1 - j]`, new shape C x W x H x D. -/
def rot90step13 (t : Tensor4) : Tensor4 :=
  ⟨t.c, t.w, t.h, t.d, fun i j a b => t.data i b a (t.w - 1 - j)⟩

/-- One quarter turn in the plane of dims (1, 2), the D x H plane:
`out[i, j, a, b] = in[i, a, H - 1 - j, b]`, new shape C x H x D x W. -/
def rot90step12 (t : Tensor4) : Tensor4 :=
  ⟨t.c, t.h, t.d, t.w, fun i j a b => t.data i a (t.h - 1 - j) b⟩

/-- `torch.rot90(t, k, dims)`: reduces `k` modulo 4 and applies that many
quarter turns in the given plane.  Only the three planes produced by the
helper's `dims_map` are modelled; any other `dims` pair raises in torch and
never occurs here, so the fall-through branch is dead. -/
def rot90 (t : Tensor4) (k : Nat) (dims : Nat × Nat) : Tensor4 :=
  let step : Tensor4 → Tensor4 :=
    if dims = (2, 3) then rot90step23
    else if dims = (1, 3) then rot90step13
    else if dims = (1, 2) then rot90step12
    else id
  if k % 4 = 0 then t
  else if k % 4 = 1 then step t
  else if k % 4 = 2 then step (step t)
  else step (step (step t))

/-- The fixed axis-to-plane lookup table of `random_rotation_single`:
axis 0 maps to dims (2, 3), axis 1 to (1, 3), axis 2 to (1, 2).  The source
dict has exactly these three keys; other axes never occur (the fall-through
value is dead, Python would raise KeyError). -/
def dims_map (axis : Nat) : Nat × Nat :=
  if axis = 0 then (2, 3) else if axis = 1 then (1, 3) else (1, 2)

/-- `random_rotation_single(vol)`: draw `axis = random.randint(0, 2)` and
`k = random.randint(0, 3)`, rotate by `k` quarter turns in the plane
`dims_map axis`, and return the rotated volume and label `axis * 4 + k`. -/
def random_rotation_single (vol : Tensor4) (g : PyGen) :
    (Tensor4 × Nat) × PyGen :=
  let (axis, g1) := g.randint 0 2
  let (k, g2) := g1.randint 0 3
  ((rot90 vol k (dims_map axis), axis * 4 + k), g2)

theorem rot90step23_four (t : Tensor4) :
    Tensor4.Eqv (rot90step23 (rot90step23 (rot90step23 (rot90step23 t)))) t := by
  refine ⟨rfl, rfl, rfl, rfl, ?_⟩
  intro i j a b hi hj ha hb
  simp only [rot90step23] at ha hb ⊢
  have h1 : t.h - 1 - (t.h - 1 - a) = a := by omega
  have h2 : t.w - 1 - (t.w - 1 - b) = b := by omega
  rw [h1, h2]

theorem rot90step13_four (t : Tensor4) :
    Tensor4.Eqv (rot90step13 (rot90step13 (rot90step13 (rot90step13 t)))) t := by
  refine ⟨rfl, rfl, rfl, rfl, ?_⟩
  intro i j a b hi hj ha hb
  simp only [rot90step13] at hj hb ⊢
  have h1 : t.d - 1 - (t.d - 1 - j) = j := by omega
  have h2 : t.w - 1 - (t.w - 1 - b) = b := by omega
  rw [h1, h2]

theorem rot90step12_four (t : Tensor4) :
    Tensor4.Eqv (rot90step12 (rot90step12 (rot90step12 (rot90step12 t)))) t := by
  refine ⟨rfl, rfl, rfl, rfl, ?_⟩
  intro i j a b hi hj ha hb
  simp only [rot90step12] at hj ha ⊢
  have h1 : t.d - 1 - (t.d - 1 - j) = j := by omega
  have h2 : t.h - 1 - (t.h - 1 - a) = a := by omega
  rw [h1, h2]

/-- C1: `random_rotation_single` draws an axis in 0..2 and a quarter-turn
count k in 0..3, rotates the volume by k quarter turns in the plane
`dims_map axis`, and returns it with the label `axis * 4 + k`; over the 12
possible (axis, k) pairs the label ranges exactly over 0..11. -/
theorem random_rotation_single_spec (vol : Tensor4) (g : PyGen) :
    ∃ axis k, axis < 3 ∧ k < 4 ∧
      (random_rotation_single vol g).1 =
        (rot90 vol k (dims_map axis), axis * 4 + k) ∧
      Finset.image (fun p : Fin 3 × Fin 4 => p.1.val * 4 + p.2.val)
          Finset.univ = Finset.range 12 := by
  refine ⟨g.raw g.pos % 3, g.raw (g.pos + 1) % 4,
    Nat.mod_lt _ (by norm_num), Nat.mod_lt _ (by norm_num), ?_, by decide⟩
  simp [random_rotation_single, PyGen.randint]

/-- C2: whatever (axis, k) pair the generator yields, rotating the output of
`random_rotation_single` by a further 4 - k quarter turns in the same plane
reconstructs the original volume exactly (value equality). -/
theorem random_rotation_single_inverse (vol : Tensor4) (g : PyGen) :
    Tensor4.Eqv
      (rot90 (random_rotation_single vol g).1.1
        (4 - ((g.randint 0 2).2.randint 0 3).1)
        (dims_map (g.randint 0 2).1))
      vol := by
  have h0 : g.raw g.pos % 3 < 3 := Nat.mod_lt _ (by norm_num)
  have h1 : g.raw (g.pos + 1) % 4 < 4 := Nat.mod_lt _ (by norm_num)
  simp only [random_rotation_single, PyGen.randint]
  norm_num
  set m := g.raw g.pos % 3 with hm
  set n := g.raw (g.pos + 1) % 4 with hn
  interval_cases m <;> interval_cases n <;>
    simp [rot90, dims_map] <;>
    first
      | exact Tensor4.Eqv.refl vol
      | exact rot90step23_four vol
      | exact rot90step13_four vol
      | exact rot90step12_four vol

/-- `vol[:, perm]`: advanced indexing along dim 1 (the depth dimension).
`out[i, j, a, b] = vol[i, perm[j], a, b]`, new depth `perm.length`. -/
def indexSelectDim1 (t : Tensor4) (perm : List Nat) : Tensor4 :=
  ⟨t.c, perm.length, t.h, t.w, fun i j a b => t.data i (perm.getD j 0) a b⟩

/-- `random_jigsaw_single(vol)`: if `random.random() < 0.5` (a draw from
Python's generator), reorder the depth slices by `torch.randperm(vol.shape[1])`
(a draw from torch's generator) and return label 1; otherwise return the
volume unchanged with label 0. -/
def random_jigsaw_single (vol : Tensor4) (py : PyGen) (tg : TorchGen) :
    (Tensor4 × Nat) × (PyGen × TorchGen) :=
  let r := (py.random).1
  let py1 := (py.random).2
  if r < 1 / 2 then
    ((indexSelectDim1 vol ((tg.randperm vol.d).1), 1),
      (py1, (tg.randperm vol.d).2))
  else ((vol, 0), (py1, tg))

/-- The depth slice of a volume at depth index `j`, as a function of the
remaining indices. -/
def sliceAt (t : Tensor4) (j : Nat) : Nat → Nat → Nat → Int :=
  fun i a b => t.data i j a b

/-- The list of depth slices of a volume, in depth order. -/
def slices (t : Tensor4) : List (Nat → Nat → Nat → Int) :=
  (List.range t.d).map (sliceAt t)

theorem random_jigsaw_single_pos (vol : Tensor4) (py : PyGen) (tg : TorchGen)
    (h : (py.random).1 < 1 / 2) :
    random_jigsaw_single vol py tg =
      ((indexSelectDim1 vol ((tg.randperm vol.d).1), 1),
        ((py.random).2, (tg.randperm vol.d).2)) := by
  simp only [random_jigsaw_single]
  rw [if_pos h]

theorem random_jigsaw_single_neg (vol : Tensor4) (py : PyGen) (tg : TorchGen)
    (h : ¬ (py.random).1 < 1 / 2) :
    random_jigsaw_single vol py tg = ((vol, 0), ((py.random).2, tg)) := by
  simp only [random_jigsaw_single]
  rw [if_neg h]

theorem range_map_getD {β : Type} (p : List Nat) (g : Nat → β) :
    (List.range p.length).map (fun j => g (p.getD j 0)) = p.map g := by
  induction p with
  | nil => rfl
  | cons x xs ih =>
    rw [List.length_cons, List.range_succ_eq_map, List.map_cons, List.map_map]
    simp only [Function.comp_def, List.getD_cons_zero, List.getD_cons_succ,
      Nat.succ_eq_add_one, List.map_cons]
    rw [ih]

theorem slices_indexSelect (t : Tensor4) (p : List Nat) :
    slices (indexSelectDim1 t p) = p.map (sliceAt t) :=
  range_map_getD p (sliceAt t)

/-- C3: `random_jigsaw_single` returns label 1 exactly when the coin draw is
below one half, label 0 otherwise; with label 0 the returned volume is the
input itself, and with label 1 the returned volume holds exactly the depth
slices of the input, as a multiset (its slice list is a permutation of the
input's slice list, by `torch.randperm`'s contract). -/
theorem random_jigsaw_single_spec (vol : Tensor4) (py : PyGen) (tg : TorchGen) :
    ((random_jigsaw_single vol py tg).1.2 = 1 ↔ (py.random).1 < 1 / 2) ∧
    ((random_jigsaw_single vol py tg).1.2 = 0 ↔ ¬ (py.random).1 < 1 / 2) ∧
    ((random_jigsaw_single vol py tg).1.2 = 0 →
      (random_jigsaw_single vol py tg).1.1 = vol) ∧
    ((random_jigsaw_single vol py tg).1.2 = 1 →
      (slices (random_jigsaw_single vol py tg).1.1).Perm (slices vol)) := by
  by_cases h : (py.random).1 < 1 / 2
  · rw [random_jigsaw_single_pos vol py tg h]
    refine ⟨⟨fun _ => h, fun _ => rfl⟩,
      ⟨fun h10 => absurd h10 Nat.one_ne_zero, fun hn => absurd h hn⟩,
      fun h10 => absurd h10 Nat.one_ne_zero, fun _ => ?_⟩
    show (slices (indexSelectDim1 vol ((tg.randperm vol.d).1))).Perm (slices vol)
    rw [slices_indexSelect]
    exact (tg.seq_perm tg.pos vol.d).map (sliceAt vol)
  · rw [random_jigsaw_single_neg vol py tg h]
    exact ⟨⟨fun h01 => absurd h01 Nat.zero_ne_one, fun hc => absurd hc h⟩,
      ⟨fun _ => h, fun _ => rfl⟩, fun _ => rfl,
      fun h01 => absurd h01 Nat.zero_ne_one⟩

/-- A Python generator whose raw stream is constantly 0, cursor at 0. -/
def pyZero : PyGen := ⟨fun _ => 0, 0⟩

/-- The same constant-0 raw stream with the cursor moved to 5: it agrees with
`pyZero` on all upcoming draws. -/
def pyShift : PyGen := ⟨fun _ => 0, 5⟩

/-- A torch generator that always yields the identity permutation. -/
def tgId : TorchGen :=
  ⟨fun _ n => List.range n, fun _ => 0, 0, fun _ _ => List.Perm.refl _⟩

/-- A torch generator that always yields the reversed permutation. -/
def tgRev : TorchGen :=
  ⟨fun _ n => (List.range n).reverse, fun _ => 0, 0,
    fun _ n => (List.range n).reverse_perm⟩

/-- A concrete volume with two distinct depth slices: entry value equals the
depth index. -/
def twoSliceVol : Tensor4 := ⟨1, 2, 1, 1, fun _ j _ _ => (j : Int)⟩

/-- C4 counterexample: the two helpers do not consume one shared source of
randomness.  With the Python generator state held fixed (the state that the
rotation helper consumes), `random_jigsaw_single` still returns different
results for different torch generator states, so its output is not
determined by seeding a single random-number generator. -/
theorem jigsaw_not_determined_by_python_generator :
    (random_jigsaw_single twoSliceVol pyZero tgId).1 ≠
      (random_jigsaw_single twoSliceVol pyZero tgRev).1 := by
  have hc : (pyZero.random).1 < 1 / 2 := by norm_num [PyGen.random, pyZero]
  rw [random_jigsaw_single_pos twoSliceVol pyZero tgId hc,
    random_jigsaw_single_pos twoSliceVol pyZero tgRev hc]
  intro hEq
  exact absurd (congrArg (fun r => r.1.data 0 0 0 0) hEq) (by decide)

/-- C4 (amended): `random_rotation_single` draws only from Python's `random`
generator; `random_jigsaw_single` draws its coin from Python's generator and
its permutation from torch's generator.  Given both generator states  -
precisely, whenever the upcoming draws of both generators agree - two runs
of either helper on the same volume produce identical (volume, label)
results. -/
theorem helpers_deterministic_given_both_generators
    (vol : Tensor4) (py py' : PyGen) (tg tg' : TorchGen)
    (hpy : ∀ i, py.raw (py.pos + i) = py'.raw (py'.pos + i))
    (htg : ∀ n, tg.seq tg.pos n = tg'.seq tg'.pos n) :
    (random_rotation_single vol py).1 = (random_rotation_single vol py').1 ∧
    (random_jigsaw_single vol py tg).1 = (random_jigsaw_single vol py' tg').1 := by
  have h0 : py.raw py.pos = py'.raw py'.pos := by simpa using hpy 0
  have h1 : py.raw (py.pos + 1) = py'.raw (py'.pos + 1) := hpy 1
  constructor
  · simp [random_rotation_single, PyGen.randint, h0, h1]
  · have hr : (py.random).1 = (py'.random).1 := by
      simp [PyGen.random, h0]
    by_cases h : (py.random).1 < 1 / 2
    · rw [random_jigsaw_single_pos vol py tg h,
        random_jigsaw_single_pos vol py' tg' (hr ▸ h)]
      simp [TorchGen.randperm, htg vol.d]
    · rw [random_jigsaw_single_neg vol py tg h,
        random_jigsaw_single_neg vol py' tg' (hr ▸ h)]

theorem helpers_deterministic_given_both_generators_witness :
    (random_rotation_single twoSliceVol pyZero).1 =
      (random_rotation_single twoSliceVol pyShift).1 ∧
    (random_jigsaw_single twoSliceVol pyZero tgId).1 =
      (random_jigsaw_single twoSliceVol pyShift tgId).1 :=
  helpers_deterministic_given_both_generators twoSliceVol pyZero pyShift tgId tgId
    (fun _ => rfl) (fun _ => rfl)

/-- C9: label 1 does not guarantee that the volume changed.  When the torch
generator happens to draw the identity permutation, the helper returns
label 1 with an output volume value-equal to the input, so the label cannot
be recovered by comparing output with input. -/
theorem jigsaw_label_one_with_unchanged_volume :
    (random_jigsaw_single twoSliceVol pyZero tgId).1.2 = 1 ∧
    Tensor4.Eqv (random_jigsaw_single twoSliceVol pyZero tgId).1.1 twoSliceVol := by
  have hc : (pyZero.random).1 < 1 / 2 := by norm_num [PyGen.random, pyZero]
  rw [random_jigsaw_single_pos twoSliceVol pyZero tgId hc]
  refine ⟨rfl, rfl, rfl, rfl, rfl, ?_⟩
  intro i j a b hi hj ha hb
  have hj2 : j < 2 := hj
  interval_cases j <;> rfl

theorem random_jigsaw_single_spec_witness :
    ((random_jigsaw_single twoSliceVol pyZero tgRev).1.2 = 1 ↔
      (pyZero.random).1 < 1 / 2) ∧
    ((random_jigsaw_single twoSliceVol pyZero tgRev).1.2 = 0 ↔
      ¬ (pyZero.random).1 < 1 / 2) ∧
    ((random_jigsaw_single twoSliceVol pyZero tgRev).1.2 = 0 →
      (random_jigsaw_single twoSliceVol pyZero tgRev).1.1 = twoSliceVol) ∧
    ((random_jigsaw_single twoSliceVol pyZero tgRev).1.2 = 1 →
      (slices (random_jigsaw_single twoSliceVol pyZero tgRev).1.1).Perm
        (slices twoSliceVol)) :=
  random_jigsaw_single_spec twoSliceVol pyZero tgRev

/-- `nn.Linear(inF, outF)`: `y o = (sum over e of weight o e * x e) + bias o`. -/
structure Linear (inF outF : Nat) where
  weight : Fin outF → Fin inF → ℚ
  bias : Fin outF → ℚ

def Linear.apply {inF outF : Nat} (l : Linear inF outF) (x : Fin inF → ℚ) :
    Fin outF → ℚ :=
  fun o => (∑ e, l.weight o e * x e) + l.bias o

/-- `EdemaHead`: a single linear layer operating on the CLS token. -/
structure EdemaHead (embSize classes : Nat) where
  lin : Linear embSize classes

/-- `EdemaHead.forward(x)` on a batch of shape (B, T, E): `self.lin(x[:, 0])`,
logits of shape (B, classes).  The token dimension is `Fin (T + 1)`, encoding
that the forward pass needs at least one token (torch raises on T = 0). -/
def EdemaHead.forward {E C B T : Nat} (m : EdemaHead E C)
    (x : Fin B → Fin (T + 1) → Fin E → ℚ) : Fin B → Fin C → ℚ :=
  fun b => m.lin.apply (fun e => x b 0 e)

/-- C5: on an embedding batch of shape (B, T, E) with T at least 1, the head
returns logits of shape (B, 2) equal to the linear layer applied to the token
at index 0; two inputs that agree at token index 0 produce identical outputs,
whatever the other token positions hold. -/
theorem edemaHead_forward_uses_only_cls_token {B T E : Nat} (m : EdemaHead E 2)
    (x y : Fin B → Fin (T + 1) → Fin E → ℚ)
    (h : ∀ b e, x b 0 e = y b 0 e) :
    m.forward x = m.forward y ∧
    ∀ b o, m.forward x b o =
      (∑ e, m.lin.weight o e * x b 0 e) + m.lin.bias o := by
  refine ⟨?_, fun b o => rfl⟩
  funext b o
  simp only [EdemaHead.forward, Linear.apply]
  congr 1
  exact Finset.sum_congr rfl fun e _ => by rw [h b e]

/-- A concrete head with unit weights and zero bias. -/
def headW : EdemaHead 1 2 := ⟨⟨fun _ _ => 1, fun _ => 0⟩⟩

/-- A concrete embedding batch whose entry at token t is t. -/
def xTok : Fin 1 → Fin 2 → Fin 1 → ℚ := fun _ t _ => ((t : ℕ) : ℚ)

/-- A perturbation of `xTok` away from token 0: entry at token t is 2 t. -/
def yTok : Fin 1 → Fin 2 → Fin 1 → ℚ := fun _ t _ => 2 * ((t : ℕ) : ℚ)

theorem edemaHead_forward_uses_only_cls_token_witness :
    headW.forward xTok = headW.forward yTok ∧
    ∀ b o, headW.forward xTok b o =
      (∑ e, headW.lin.weight o e * xTok b 0 e) + headW.lin.bias o :=
  edemaHead_forward_uses_only_cls_token headW xTok yTok
    (fun b e => by norm_num [xTok, yTok])

/-- The float value of `torch.pi`, carried as a rational. -/
def torch_pi : ℚ := 3.141592653589793

/-- One configured MONAI transform stage.  Each constructor mirrors one of
the transform classes used in `transforms.py`, with the keyword arguments the
source passes; numeric parameters are carried as rationals. -/
inductive Stage where
  | loadImage (key : String) (imageOnly : Bool) (reader : String)
  | ensureChannelFirst (key : String) (strictCheck : Bool)
  | orientation (key : String) (axcodes : String)
  | normalizeIntensity (key : String) (subtrahend divisor : ℚ)
  | ensureType (key : String)
  | randFlip (key : String) (prob : ℚ) (spatialAxis : List Nat)
  | randAffine (key : String) (prob : ℚ)
      (rotateRange translateRange scaleRange : ℚ × ℚ × ℚ) (paddingMode : String)
  | randAdjustContrast (key : String) (prob : ℚ) (gamma : ℚ × ℚ)
  | randScaleIntensity (key : String) (factors prob : ℚ)
  | randShiftIntensity (key : String) (offsets prob : ℚ)
  | randGaussianNoise (key : String) (prob mean std : ℚ)
  | randGaussianSmooth (key : String) (prob : ℚ) (sigmaX sigmaY sigmaZ : ℚ × ℚ)
  | randCoarseDropout (key : String) (prob : ℚ) (holes : Nat)
      (spatialSize : Nat × Nat × Nat) (maxHoles : Nat) (fillValue : ℚ)
  deriving DecidableEq

/-- `get_monai_augment(with_coarse)`: the fixed augmentation stage list, with
the coarse-dropout stage appended before `EnsureTyped` when `with_coarse`. -/
def get_monai_augment (with_coarse : Bool) : List Stage :=
  let aug : List Stage :=
    [Stage.randFlip "image" 0.5 [0],
     Stage.randFlip "image" 0.5 [1],
     Stage.randFlip "image" 0.5 [2],
     Stage.randAffine "image" 0.7 (torch_pi / 36, torch_pi / 36, torch_pi / 36)
       (4, 4, 4) (0.05, 0.05, 0.05) "border",
     Stage.randAdjustContrast "image" 0.3 (0.7, 1.4),
     Stage.randScaleIntensity "image" 0.15 0.3,
     Stage.randShiftIntensity "image" 0.10 0.3,
     Stage.randGaussianNoise "image" 0.25 0 0.01,
     Stage.randGaussianSmooth "image" 0.15 (0, 1) (0, 1) (0, 1)]
  let aug := if with_coarse then
      aug ++ [Stage.randCoarseDropout "image" 0.2 4 (16, 16, 16) 4 0]
    else aug
  aug ++ [Stage.ensureType "image"]

/-- `build_transforms(mean, std)`: the load/normalize pipeline plus the two
augmentation variants, as three independent stage lists. -/
def build_transforms (mean std : ℚ) :
    List Stage × List Stage × List Stage :=
  ([Stage.loadImage "image" false "ITKReader",
    Stage.ensureChannelFirst "image" false,
    Stage.orientation "image" "SAR",
    Stage.normalizeIntensity "image" mean std,
    Stage.ensureType "image"],
   get_monai_augment false,
   get_monai_augment true)

/-- C6: for every mean and std, `build_transforms` returns exactly three
pipelines - the load pipeline, the moderate augmentation, and the
coarse-dropout augmentation - and the third stage sequence differs from the
second only by one additional stage, the coarse-dropout operation. -/
theorem build_transforms_spec (mean std : ℚ) :
    build_transforms mean std =
      ([Stage.loadImage "image" false "ITKReader",
        Stage.ensureChannelFirst "image" false,
        Stage.orientation "image" "SAR",
        Stage.normalizeIntensity "image" mean std,
        Stage.ensureType "image"],
       get_monai_augment false, get_monai_augment true) ∧
    ∃ pre post,
      get_monai_augment false = pre ++ post ∧
      get_monai_augment true =
        pre ++ Stage.randCoarseDropout "image" 0.2 4 (16, 16, 16) 4 0 :: post :=
  ⟨rfl,
    [Stage.randFlip "image" 0.5 [0],
     Stage.randFlip "image" 0.5 [1],
     Stage.randFlip "image" 0.5 [2],
     Stage.randAffine "image" 0.7 (torch_pi / 36, torch_pi / 36, torch_pi / 36)
       (4, 4, 4) (0.05, 0.05, 0.05) "border",
     Stage.randAdjustContrast "image" 0.3 (0.7, 1.4),
     Stage.randScaleIntensity "image" 0.15 0.3,
     Stage.randShiftIntensity "image" 0.10 0.3,
     Stage.randGaussianNoise "image" 0.25 0 0.01,
     Stage.randGaussianSmooth "image" 0.15 (0, 1) (0, 1) (0, 1)],
    [Stage.ensureType "image"], rfl, rfl⟩

/-- The keyed-mapping sample form the MONAI pipelines operate on: a dict from
string keys to volumes.  A missing key is `none` (Python raises KeyError). -/
def Dict : Type := String → Option Tensor4

/-- The wrapping the batch helper performs on each sample: a dict holding the
volume under the key "image". -/
def wrapImage (s : Tensor4) : Dict :=
  fun k => if k = "image" then some s else none

/-- Collect a list of optional values; any missing value aborts (a Python
exception propagating out of the list comprehension). -/
def allSome {α : Type} : List (Option α) → Option (List α)
  | [] => some []
  | none :: _ => none
  | some a :: rest =>
    match allSome rest with
    | some l => some (a :: l)
    | none => none

/-- A stacked batch of volumes, shape N x C x D x H x W. -/
structure Batch where
  n : Nat
  c : Nat
  d : Nat
  h : Nat
  w : Nat
  data : Nat → Nat → Nat → Nat → Nat → Int

def sameShape (s t : Tensor4) : Bool :=
  s.c == t.c && s.d == t.d && s.h == t.h && s.w == t.w

/-- `torch.stack`: fails on an empty list or mismatched shapes, otherwise
builds the batch whose sample m is the m-th list element, in order. -/
def stack : List Tensor4 → Option Batch
  | [] => none
  | t :: rest =>
    if rest.all (fun s => sameShape s t) then
      some ⟨rest.length + 1, t.c, t.d, t.h, t.w,
        fun m i j a b => ((t :: rest).getD m t).data i j a b⟩
    else none

/-- `augment_batch(imgs, tf)`: wrap each sample under the key "image", apply
the transform, read the key "image" back, and stack the results in order. -/
def augment_batch (imgs : List Tensor4) (tf : Dict → Dict) : Option Batch :=
  match allSome (imgs.map (fun s => tf (wrapImage s) "image")) with
  | some outs => stack outs
  | none => none

theorem allSome_map_some {α : Type} (l : List α) :
    allSome (l.map some) = some l := by
  induction l with
  | nil => rfl
  | cons x xs ih => simp [allSome, ih]

/-- C7: `augment_batch` applies the transform to each sample independently
(wrapped under the key "image") and stacks the results in input order: a
transform acting as `f` on each wrapped sample yields the stack of the mapped
list, and a transform acting as the identity yields the stacked input. -/
theorem augment_batch_spec (imgs : List Tensor4) (tf : Dict → Dict)
    (f : Tensor4 → Tensor4) :
    ((∀ s, tf (wrapImage s) = wrapImage (f s)) →
      augment_batch imgs tf = stack (imgs.map f)) ∧
    ((∀ d, tf d = d) → augment_batch imgs tf = stack imgs) := by
  have key : ∀ s : Tensor4, wrapImage s "image" = some s := by
    intro s
    simp [wrapImage]
  constructor
  · intro h
    have hmap : imgs.map (fun s => tf (wrapImage s) "image") =
        (imgs.map f).map some := by
      rw [List.map_map]
      exact List.map_congr_left fun s _ => by rw [h, key]; rfl
    unfold augment_batch
    rw [hmap, allSome_map_some]
  · intro h
    have hmap : imgs.map (fun s => tf (wrapImage s) "image") =
        imgs.map some := by
      exact List.map_congr_left fun s _ => by rw [h, key]
    unfold augment_batch
    rw [hmap, allSome_map_some]

theorem augment_batch_spec_witness :
    augment_batch [twoSliceVol] (fun d => d) =
      stack ([twoSliceVol].map (fun s => s)) ∧
    augment_batch [twoSliceVol] (fun d => d) = stack [twoSliceVol] :=
  ⟨(augment_batch_spec [twoSliceVol] (fun d => d) (fun s => s)).1
      (fun _ => rfl),
   (augment_batch_spec [twoSliceVol] (fun d => d) (fun s => s)).2
      (fun _ => rfl)⟩

/-- Row-major flat position of a multi-index within a shape. -/
def flatIndex : List Nat → List Nat → Nat
  | _ :: srest, i :: irest => i * srest.prod + flatIndex srest irest
  | _, _ => 0

/-- A boolean mask tensor over a shape, held on a device. -/
structure Mask where
  shape : List Nat
  device : String
  data : List Nat → Bool

/-- `create_mask(shape, ratio, device)`: `torch.rand(shape, device=device) <
ratio` elementwise; the entry at a multi-index is true iff its uniform draw
(taken at the index's row-major position among the generator's upcoming
draws) is strictly below `ratio`.  Consumes `shape.prod` draws. -/
def create_mask (shape : List Nat) (ratio : ℚ) (device : String)
    (tg : TorchGen) : Mask × TorchGen :=
  ({ shape := shape, device := device,
     data := fun idx =>
       decide (tg.randFloat (tg.pos + flatIndex shape idx) < ratio) },
   ⟨tg.seq, tg.raw, tg.pos + shape.prod, tg.seq_perm⟩)

/-- C8: `create_mask` returns a boolean mask of exactly the requested shape
on the requested device; an entry is true iff its uniform [0, 1) draw is
strictly below the ratio; and no state is retained between calls - the
output is fully determined by the arguments and the generator's upcoming
draws. -/
theorem create_mask_spec (shape : List Nat) (ratio : ℚ) (device : String)
    (tg : TorchGen) :
    (create_mask shape ratio device tg).1.shape = shape ∧
    (create_mask shape ratio device tg).1.device = device ∧
    (∀ idx, (create_mask shape ratio device tg).1.data idx = true ↔
      tg.randFloat (tg.pos + flatIndex shape idx) < ratio) ∧
    (∀ tg' : TorchGen, (∀ i, tg.raw (tg.pos + i) = tg'.raw (tg'.pos + i)) →
      (create_mask shape ratio device tg).1.data =
        (create_mask shape ratio device tg').1.data) := by
  refine ⟨rfl, rfl, fun idx => by simp [create_mask], fun tg' hraw => ?_⟩
  funext idx
  simp only [create_mask, TorchGen.randFloat, hraw (flatIndex shape idx)]

/-- A torch generator with the same draws as `tgId` but its cursor at 7. -/
def tgShift : TorchGen :=
  ⟨fun _ n => List.range n, fun _ => 0, 7, fun _ _ => List.Perm.refl _⟩

theorem create_mask_spec_witness :
    (create_mask [2, 2] (1 / 2) "cuda" tgId).1.shape = [2, 2] ∧
    (create_mask [2, 2] (1 / 2) "cuda" tgId).1.data =
      (create_mask [2, 2] (1 / 2) "cuda" tgShift).1.data :=
  ⟨(create_mask_spec [2, 2] (1 / 2) "cuda" tgId).1,
   (create_mask_spec [2, 2] (1 / 2) "cuda" tgId).2.2.2 tgShift (fun _ => rfl)⟩

/-- C10: the uniform draws lie in [0, 1), so a ratio of 1 or more yields an
all-true mask and a ratio of 0 or less an all-false mask, for every shape,
device and generator state; the function validates nothing and accepts any
rational ratio. -/
theorem create_mask_ratio_extremes (shape : List Nat) (ratio : ℚ)
    (device : String) (tg : TorchGen) (idx : List Nat) :
    (1 ≤ ratio → (create_mask shape ratio device tg).1.data idx = true) ∧
    (ratio ≤ 0 → (create_mask shape ratio device tg).1.data idx = false) := by
  have h0 : (0 : ℚ) ≤ tg.randFloat (tg.pos + flatIndex shape idx) := by
    unfold TorchGen.randFloat
    positivity
  have h1 : tg.randFloat (tg.pos + flatIndex shape idx) < 1 := by
    unfold TorchGen.randFloat
    rw [div_lt_one (by norm_num)]
    exact_mod_cast Nat.mod_lt _ (by norm_num)
  constructor
  · intro hr
    simp only [create_mask, decide_eq_true_eq]
    exact lt_of_lt_of_le h1 hr
  · intro hr
    simp only [create_mask, decide_eq_false_iff_not, not_lt]
    exact le_trans hr h0

theorem create_mask_ratio_extremes_witness :
    (1 ≤ (2 : ℚ) ∧ (create_mask [3] 2 "cpu" tgId).1.data [1] = true) ∧
    ((-1 : ℚ) ≤ 0 ∧ (create_mask [3] (-1) "cpu" tgId).1.data [1] = false) :=
  ⟨⟨by norm_num,
    (create_mask_ratio_extremes [3] 2 "cpu" tgId [1]).1 (by norm_num)⟩,
   ⟨by norm_num,
    (create_mask_ratio_extremes [3] (-1) "cpu" tgId [1]).2 (by norm_num)⟩⟩
